import Mathlib

/-!
# Verification of the `conc` hazard-pointer reclamation engine

Shallow embedding of the `conc` crate (`src/conc/src/lib.rs`) and of the
components its public API delegates to.  The crate's submodules (`hazard`,
`local`, `global`, `garbage`, `guard`) are not part of the sources available
here, so those components are modelled from the specification, as marked on
each definition.  The public functions `try_gc`, `gc`, `add_garbage` and
`add_garbage_box` are translated from `lib.rs` directly.
-/

namespace Conc

/-- A raw machine address (`*mut u8` in the source). -/
abbrev Addr := Nat

/-- Modelled from the spec: a garbage entry (`garbage::Garbage`, module missing
from the sources) is "an address plus its destructor, submitted for eventual
destruction once unprotected".  The destructor is abstracted by an identifier;
its behaviour only matters for the invocation log. -/
structure Entry where
  ptr : Addr
  dtor : Nat
deriving DecidableEq, Repr

/-- Modelled from the spec: the global reclamation state — the hazard registry
(`hazard`/`global` modules, missing from the sources) abstracted as the list of
live guards with the address each protects, the current thread's local garbage
buffer (`local` module, missing), the global garbage queue (`global` module,
missing), a log of every destructor invocation, and whether another thread
currently holds the collector lock. -/
structure State where
  guards : List (Nat × Addr)
  localBuf : List Entry
  queue : List Entry
  destroyed : List Entry
  lockHeld : Bool
deriving DecidableEq, Repr

/-- Modelled from the spec: `Registry.snapshot()` — "reads every slot's current
state (ignoring Free and Dead) and returns the set of currently-protected
addresses"; here, the addresses protected by the live guards. -/
def protectedAddrs (s : State) : List Addr :=
  s.guards.map Prod.snd

/-- Modelled from the spec: `local::export_garbage()` "moves the entire local
buffer into the Global Garbage Queue in one batch and clears the buffer". -/
def exportGarbage (s : State) : State :=
  { s with localBuf := [], queue := s.queue ++ s.localBuf }

/-- The entries a collection pass destroys: the drained entries whose address
is not in the snapshot `P` (spec §4.4 step 3). -/
def destroyedThisPass (s : State) : List Entry :=
  s.queue.filter (fun e => decide (e.ptr ∉ protectedAddrs s))

/-- The entries a collection pass keeps for a future pass: the drained entries
whose address is in the snapshot `P` (spec §4.4 step 3). -/
def keptThisPass (s : State) : List Entry :=
  s.queue.filter (fun e => decide (e.ptr ∈ protectedAddrs s))

/-- The events of an interleaving, from the point of view of one observed
thread: guard creation and drop (any thread), a local garbage submission
(`local::add_garbage` buffering on the observed thread), an entry made
globally visible by some other thread's export, the observed thread's
`export_garbage`, and a full collection pass run under the collector lock. -/
inductive Event where
  | createGuard (g : Nat) (a : Addr)
  | dropGuard (g : Nat)
  | addLocal (e : Entry)
  | pushGlobal (e : Entry)
  | exportG
  | collect
deriving DecidableEq, Repr

/-- Modelled from the spec: one atomic step of the system.  The `collect` case
is §4.4 with the lock held: snapshot the registry into `P`, drain the queue,
destroy every entry whose address is outside `P` and keep the rest visible. -/
def step (s : State) : Event → State
  | .createGuard g a => { s with guards := (g, a) :: s.guards }
  | .dropGuard g => { s with guards := s.guards.filter (fun p => decide (p.1 ≠ g)) }
  | .addLocal e => { s with localBuf := s.localBuf ++ [e] }
  | .pushGlobal e => { s with queue := s.queue ++ [e] }
  | .exportG => exportGarbage s
  | .collect =>
      { s with queue := keptThisPass s,
               destroyed := s.destroyed ++ destroyedThisPass s }

/-- Run a sequence of events from a state. -/
def run (s : State) (evs : List Event) : State :=
  evs.foldl step s

/-- Does this event create a guard protecting address `a`? -/
def createsGuardFor (a : Addr) : Event → Bool
  | .createGuard _ b => b = a
  | _ => false

theorem run_append (s : State) (l₁ l₂ : List Event) :
    run s (l₁ ++ l₂) = run (run s l₁) l₂ :=
  List.foldl_append step s l₁ l₂

theorem run_cons (s : State) (ev : Event) (l : List Event) :
    run s (ev :: l) = run (step s ev) l := rfl

theorem destroyed_monotone (s : State) (ev : Event) (e : Entry)
    (h : e ∈ s.destroyed) : e ∈ (step s ev).destroyed := by
  cases ev <;> simp [step, exportGarbage] <;> first | exact h | exact Or.inl h

theorem destroyed_monotone_run (s : State) (evs : List Event) (e : Entry)
    (h : e ∈ s.destroyed) : e ∈ (run s evs).destroyed := by
  induction evs generalizing s with
  | nil => exact h
  | cons ev rest ih => exact ih (step s ev) (destroyed_monotone s ev e h)

theorem queue_preserved (s : State) (ev : Event) (hev : ev ≠ Event.collect) (e : Entry)
    (h : e ∈ s.queue) : e ∈ (step s ev).queue := by
  cases ev <;>
    simp [step, exportGarbage] <;>
    first | exact h | exact Or.inl h | exact absurd rfl hev

theorem unprotected_preserved (s : State) (ev : Event) (e : Entry)
    (hng : createsGuardFor e.ptr ev = false)
    (h : e.ptr ∉ protectedAddrs s) : e.ptr ∉ protectedAddrs (step s ev) := by
  cases ev with
  | createGuard g a =>
    simp [createsGuardFor] at hng
    simp [step, protectedAddrs] at h ⊢
    exact ⟨fun hh => hng hh.symm, h⟩
  | dropGuard g =>
    intro hcontra
    refine h ?_
    simp only [step, protectedAddrs, List.mem_map, List.mem_filter] at hcontra ⊢
    obtain ⟨p, ⟨hp, _⟩, hsnd⟩ := hcontra
    exact ⟨p, hp, hsnd⟩
  | addLocal e' => exact h
  | pushGlobal e' => exact h
  | exportG => exact h
  | collect => exact h

/-- C1: over every interleaving of guard creation/drop, garbage submission,
export and collection passes, whenever an entry is destroyed (its destructor
invoked, i.e. it newly enters the destruction log at some step of the trace),
no live guard protects its address in the state just before that step:
destruction happens only after the last guard protecting the pointer has been
dropped. -/
theorem destruction_only_when_unprotected (s₀ : State) (pre : List Event)
    (ev : Event) (e : Entry)
    (hnew : e ∈ (step (run s₀ pre) ev).destroyed)
    (hold : e ∉ (run s₀ pre).destroyed) :
    e.ptr ∉ protectedAddrs (run s₀ pre) := by
  set s := run s₀ pre with hs
  cases ev with
  | collect =>
    simp [step] at hnew
    rcases hnew with hnew | hnew
    · exact absurd hnew hold
    · simp [destroyedThisPass, List.mem_filter] at hnew
      exact hnew.2
  | createGuard g a => exact absurd hnew hold
  | dropGuard g => exact absurd hnew hold
  | addLocal e' => exact absurd hnew hold
  | pushGlobal e' => exact absurd hnew hold
  | exportG => exact absurd hnew hold

theorem destruction_only_when_unprotected_witness :
    (⟨5, 0⟩ : Entry).ptr ∉
      protectedAddrs (run ⟨[], [], [⟨5, 0⟩], [], false⟩ []) :=
  destruction_only_when_unprotected ⟨[], [], [⟨5, 0⟩], [], false⟩ []
    Event.collect ⟨5, 0⟩ (by decide) (by decide)

/-- C2: a collection pass, with the lock held, snapshots the protected-address
set `P` and drains the queue; a drained entry is destroyed in the pass iff its
address is not in `P`, and it stays visible in the queue for a future pass iff
its address is in `P` — a protected entry is never destroyed in this pass. -/
theorem collect_pass_partitions (s : State) (e : Entry) (he : e ∈ s.queue) :
    (e ∈ destroyedThisPass s ↔ e.ptr ∉ protectedAddrs s) ∧
    (e ∈ (step s .collect).queue ↔ e.ptr ∈ protectedAddrs s) := by
  constructor
  · simp [destroyedThisPass, List.mem_filter, he]
  · simp [step, keptThisPass, List.mem_filter, he]

theorem collect_pass_partitions_witness :
    ((⟨5, 0⟩ : Entry) ∈ destroyedThisPass ⟨[(1, 7)], [], [⟨5, 0⟩, ⟨7, 1⟩], [], false⟩ ↔
      (⟨5, 0⟩ : Entry).ptr ∉ protectedAddrs ⟨[(1, 7)], [], [⟨5, 0⟩, ⟨7, 1⟩], [], false⟩) ∧
    ((⟨5, 0⟩ : Entry) ∈ (step ⟨[(1, 7)], [], [⟨5, 0⟩, ⟨7, 1⟩], [], false⟩ .collect).queue ↔
      (⟨5, 0⟩ : Entry).ptr ∈ protectedAddrs ⟨[(1, 7)], [], [⟨5, 0⟩, ⟨7, 1⟩], [], false⟩) :=
  collect_pass_partitions ⟨[(1, 7)], [], [⟨5, 0⟩, ⟨7, 1⟩], [], false⟩ ⟨5, 0⟩ (by decide)

/-- C3: once an entry sits in the global queue, no guard protects its address,
and no later event creates a guard for that address, the first collection pass
in the remaining trace destroys it (so finitely many passes suffice); moreover
a queued entry is never silently lost: each step either keeps it in the queue
or destroys it. -/
theorem garbage_eventually_destroyed (s₀ : State) (evs : List Event) (e : Entry) :
    (e ∈ s₀.queue → e.ptr ∉ protectedAddrs s₀ →
      (∀ ev ∈ evs, createsGuardFor e.ptr ev = false) → Event.collect ∈ evs →
      e ∈ (run s₀ evs).destroyed) ∧
    (∀ ev : Event, e ∈ s₀.queue → e ∈ (step s₀ ev).queue ∨ e ∈ (step s₀ ev).destroyed) := by
  constructor
  · intro hq hnoguard hnonew hcollect
    induction evs generalizing s₀ with
    | nil => cases hcollect
    | cons ev rest ih =>
      rw [run_cons]
      by_cases hev : ev = Event.collect
      · subst hev
        apply destroyed_monotone_run
        simp [step, destroyedThisPass, List.mem_filter]
        exact Or.inr ⟨hq, hnoguard⟩
      · refine ih (step s₀ ev) (queue_preserved s₀ ev hev e hq)
          (unprotected_preserved s₀ ev e (hnonew ev (by simp)) hnoguard)
          (fun ev' hev' => hnonew ev' (by simp [hev'])) ?_
        rcases List.mem_cons.mp hcollect with hc | hc
        · exact absurd hc.symm hev
        · exact hc
  · intro ev hq
    by_cases hev : ev = Event.collect
    · subst hev
      by_cases hp : e.ptr ∈ protectedAddrs s₀
      · exact Or.inl (by simp [step, keptThisPass, List.mem_filter, hq, hp])
      · exact Or.inr (by simp [step, destroyedThisPass, List.mem_filter, hq, hp])
    · exact Or.inl (queue_preserved s₀ ev hev e hq)

theorem garbage_eventually_destroyed_witness :
    (⟨5, 0⟩ : Entry) ∈
      (run ⟨[], [], [⟨5, 0⟩], [], false⟩ [Event.dropGuard 1, Event.collect]).destroyed :=
  (garbage_eventually_destroyed ⟨[], [], [⟨5, 0⟩], [], false⟩
      [Event.dropGuard 1, Event.collect] ⟨5, 0⟩).1
    (by decide) (by decide) (by decide) (by decide)

/-- C8: `export_garbage()` on a thread whose local garbage buffer is empty is a
no-op — it pushes no entries to the global queue and the whole state is
unchanged. -/
theorem export_empty_noop (s : State) (h : s.localBuf = []) :
    exportGarbage s = s := by
  cases s with
  | mk g l q d lk => simp_all [exportGarbage]

theorem export_empty_noop_witness :
    exportGarbage ⟨[(1, 7)], [], [⟨5, 0⟩], [], true⟩ =
      (⟨[(1, 7)], [], [⟨5, 0⟩], [], true⟩ : State) :=
  export_empty_noop ⟨[(1, 7)], [], [⟨5, 0⟩], [], true⟩ rfl

/-- Modelled from the spec: `global::try_gc` (module `global` missing from the
sources) — the non-blocking collection: "attempts to take the collector lock;
on failure (another thread is mid-collection) returns immediately signaling
the caller to skip"; on success it runs the scan-and-drain pass. -/
def globalTryGc (held : Bool) (s : State) : Except Unit State :=
  if held then .error () else .ok (step s .collect)

/-- `conc::try_gc` from `lib.rs`: export the local garbage, then run the
non-blocking global collection; `Err(())` is propagated when the collector
lock is held by another thread.  Returns the result paired with the state the
global mutable structures are left in. -/
def try_gc (s : State) : Except Unit Unit × State :=
  let s1 := exportGarbage s
  match globalTryGc s1.lockHeld s1 with
  | .error _ => (.error (), s1)
  | .ok s2 => (.ok (), s2)

/-- C4: `try_gc()` first exports the local buffer and then attempts the
non-blocking collection; it returns `Err` iff another thread holds the
collector lock, and the export has happened on both the `Ok` and the busy
path (the resulting state goes through `exportGarbage` either way). -/
theorem try_gc_busy_iff (s : State) :
    ((try_gc s).1 = .error () ↔ s.lockHeld = true) ∧
    (try_gc s).2.localBuf = [] ∧
    (s.lockHeld = true → (try_gc s).2 = exportGarbage s) ∧
    (s.lockHeld = false → (try_gc s).2 = step (exportGarbage s) .collect) := by
  cases h : s.lockHeld <;>
    simp [try_gc, globalTryGc, exportGarbage, h, step, keptThisPass, destroyedThisPass]

theorem try_gc_busy_iff_witness :
    (try_gc ⟨[], [⟨5, 0⟩], [], [], false⟩).2 =
      step (exportGarbage ⟨[], [⟨5, 0⟩], [], [], false⟩) .collect :=
  (try_gc_busy_iff ⟨[], [⟨5, 0⟩], [], [], false⟩).2.2.2 rfl

/-- `conc::gc` from `lib.rs`: export the local garbage, then retry the
non-blocking global collection until it succeeds
(`while let Err(()) = global::try_gc() {}`).  The collector lock's state at
the n-th attempt is given by the schedule `sched`; `fuel` bounds the number of
attempts so the loop is a total function. -/
def gcAux (sched : Nat → Bool) (s1 : State) : Nat → Nat → Option State
  | _, 0 => none
  | n, fuel + 1 =>
    match globalTryGc (sched n) s1 with
    | .error _ => gcAux sched s1 (n + 1) fuel
    | .ok s2 => some s2

/-- `conc::gc` from `lib.rs`, assembled from export plus the retry loop. -/
def gc (sched : Nat → Bool) (s : State) (fuel : Nat) : Option State :=
  gcAux sched (exportGarbage s) 0 fuel

/-- Modelled from the spec: `collect_blocking()` "spins/blocks until the lock
is acquired, then runs the same algorithm" — spin past every attempt at which
the lock is held, then run one scan-and-drain pass. -/
def collectBlocking (sched : Nat → Bool) (s1 : State) : Nat → Nat → Option State
  | _, 0 => none
  | n, fuel + 1 =>
    if sched n then collectBlocking sched s1 (n + 1) fuel
    else some (step s1 .collect)

theorem gcAux_eq_collectBlocking (sched : Nat → Bool) (s1 : State)
    (n fuel : Nat) : gcAux sched s1 n fuel = collectBlocking sched s1 n fuel := by
  induction fuel generalizing n with
  | zero => rfl
  | succ fuel ih =>
    cases h : sched n <;> simp [gcAux, collectBlocking, globalTryGc, h, ih]

theorem gcAux_terminates (sched : Nat → Bool) (s1 : State) (k fuel m : Nat)
    (hm : m < fuel) (hfree : sched (k + m) = false) :
    gcAux sched s1 k fuel = some (step s1 .collect) := by
  induction fuel generalizing k m with
  | zero => cases hm
  | succ fuel ih =>
    cases h : sched k with
    | false => simp [gcAux, globalTryGc, h]
    | true =>
      rw [gcAux, globalTryGc, if_pos h]
      cases m with
      | zero => rw [Nat.add_zero] at hfree; exact absurd h (by simp [hfree])
      | succ m =>
        refine ih (k + 1) m (Nat.lt_of_succ_lt_succ hm) ?_
        have hk : k + 1 + m = k + (m + 1) := by omega
        rw [hk]
        exact hfree

/-- C5: `gc()` first exports the local garbage, then its retry loop over the
non-blocking collection behaves exactly like the spec's `collect_blocking`:
the two functions agree on every schedule and fuel, `gc` terminates as soon
as the schedule frees the lock within the fuel bound, and whenever it returns
it has itself completed one full collection pass over the exported state. -/
theorem gc_eq_collect_blocking (sched : Nat → Bool) (s : State) :
    (∀ fuel, gc sched s fuel = collectBlocking sched (exportGarbage s) 0 fuel) ∧
    (∀ fuel m, m < fuel → sched m = false →
      gc sched s fuel = some (step (exportGarbage s) .collect)) ∧
    (∀ fuel s', gc sched s fuel = some s' → s' = step (exportGarbage s) .collect) := by
  refine ⟨fun fuel => gcAux_eq_collectBlocking sched (exportGarbage s) 0 fuel,
    fun fuel m hm hfree =>
      gcAux_terminates sched (exportGarbage s) 0 fuel m hm (by simpa using hfree),
    fun fuel s' h => ?_⟩
  induction fuel generalizing s' with
  | zero => cases h
  | succ fuel ih =>
    unfold gc gcAux at h
    cases hs : sched 0
    all_goals rw [globalTryGc] at h
    · rw [if_neg (by simp [hs])] at h
      exact (Option.some.injEq _ _ ▸ h).symm
    · rw [if_pos hs] at h
      revert h
      generalize 0 + 1 = k
      intro h
      clear ih hs
      induction fuel generalizing k with
      | zero => cases h
      | succ fuel ih2 =>
        unfold gcAux at h
        cases hk : sched k
        all_goals rw [globalTryGc] at h
        · rw [if_neg (by simp [hk])] at h
          exact (Option.some.injEq _ _ ▸ h).symm
        · exact ih2 (k + 1) (by rw [if_pos hk] at h; exact h)

theorem gc_eq_collect_blocking_witness :
    gc (fun n => n = 0) ⟨[], [⟨5, 0⟩], [], [], false⟩ 3 =
      some (step (exportGarbage ⟨[], [⟨5, 0⟩], [], [], false⟩) .collect) :=
  (gc_eq_collect_blocking (fun n => n = 0) ⟨[], [⟨5, 0⟩], [], [], false⟩).2.1
    3 1 (by decide) (by decide)

/-- Outcome of a collection attempt when destructors may panic. -/
inductive GcOutcome where
  | ok
  | busy
  | panicked
deriving DecidableEq, Repr

/-- Modelled from the spec: a collection pass's drain loop when a destructor
may panic.  `panics e` says whether `e`'s destructor panics when invoked.  For
each drained entry whose address is in `P` the entry is kept; otherwise its
destructor is invoked — if it panics the whole pass aborts there (entries
after it are not processed and it is not re-queued).  Returns the kept
entries, the list of entries whose destructors were invoked (in order), and
the entry whose destructor panicked, if any. -/
def drainPanic (panics : Entry → Bool) (P : List Addr) :
    List Entry → List Entry × List Entry × Option Entry
  | [] => ([], [], none)
  | e :: rest =>
    if e.ptr ∈ P then
      let r := drainPanic panics P rest
      (e :: r.1, r.2.1, r.2.2)
    else if panics e then ([], [e], some e)
    else
      let r := drainPanic panics P rest
      (r.1, e :: r.2.1, r.2.2)

/-- Modelled from the spec: a collection pass under the collector lock, with
panicking destructors; the lock is released on both the normal and the
panicking exit. -/
def collectPanic (panics : Entry → Bool) (s : State) : GcOutcome × State :=
  let r := drainPanic panics (protectedAddrs s) s.queue
  ((if r.2.2.isSome then .panicked else .ok),
   { s with queue := r.1, destroyed := s.destroyed ++ r.2.1, lockHeld := false })

/-- `conc::try_gc` from `lib.rs`, with panic propagation: a panic in a
destructor during the global collection makes `try_gc` panic as well. -/
def try_gc_panic (panics : Entry → Bool) (s : State) : GcOutcome × State :=
  let s1 := exportGarbage s
  if s1.lockHeld then (.busy, s1) else collectPanic panics s1

/-- The retry loop of `conc::gc` from `lib.rs`, with panic propagation. -/
def gcPanicAux (panics : Entry → Bool) (s1 : State) : Nat → Option (GcOutcome × State)
  | 0 => none
  | fuel + 1 =>
    if s1.lockHeld then gcPanicAux panics s1 fuel
    else some (collectPanic panics s1)

/-- `conc::gc` from `lib.rs`, with panic propagation. -/
def gc_panic (panics : Entry → Bool) (s : State) (fuel : Nat) :
    Option (GcOutcome × State) :=
  gcPanicAux panics (exportGarbage s) fuel

theorem drainPanic_kept_protected (panics : Entry → Bool) (P : List Addr)
    (q : List Entry) : ∀ x ∈ (drainPanic panics P q).1, x.ptr ∈ P := by
  induction q with
  | nil => intro x hx; cases hx
  | cons e rest ih =>
    intro x hx
    by_cases hp : e.ptr ∈ P
    · rw [drainPanic, if_pos hp] at hx
      rcases List.mem_cons.mp hx with h | h
      · exact h ▸ hp
      · exact ih x h
    · rw [drainPanic, if_neg hp] at hx
      by_cases hpa : panics e
      · rw [if_pos hpa] at hx; cases hx
      · rw [if_neg hpa] at hx; exact ih x hx

theorem drainPanic_panicking_entry (panics : Entry → Bool) (P : List Addr)
    (q : List Entry) (e : Entry) (h : (drainPanic panics P q).2.2 = some e) :
    e ∈ q ∧ e.ptr ∉ P ∧ panics e = true := by
  induction q with
  | nil => cases h
  | cons e' rest ih =>
    by_cases hp : e'.ptr ∈ P
    · rw [drainPanic, if_pos hp] at h
      obtain ⟨h1, h2, h3⟩ := ih h
      exact ⟨List.mem_cons_of_mem e' h1, h2, h3⟩
    · rw [drainPanic, if_neg hp] at h
      by_cases hpa : panics e'
      · rw [if_pos hpa] at h
        obtain rfl : e' = e := by simpa using h
        exact ⟨List.mem_cons_self e' rest, hp, hpa⟩
      · rw [if_neg hpa] at h
        obtain ⟨h1, h2, h3⟩ := ih h
        exact ⟨List.mem_cons_of_mem e' h1, h2, h3⟩

theorem drainPanic_aborts_at (panics : Entry → Bool) (P : List Addr)
    (q : List Entry) (e : Entry) (h : (drainPanic panics P q).2.2 = some e) :
    ∃ pre, (drainPanic panics P q).2.1 = pre ++ [e] ∧
      ∀ x ∈ pre, panics x = false := by
  induction q with
  | nil => cases h
  | cons e' rest ih =>
    by_cases hp : e'.ptr ∈ P
    · rw [drainPanic, if_pos hp] at h ⊢
      exact ih h
    · rw [drainPanic, if_neg hp] at h ⊢
      by_cases hpa : panics e'
      · rw [if_pos hpa] at h ⊢
        obtain rfl : e' = e := by simpa using h
        exact ⟨[], rfl, fun x hx => absurd hx (List.not_mem_nil x)⟩
      · rw [if_neg hpa] at h ⊢
        obtain ⟨pre, hpre, hall⟩ := ih h
        refine ⟨e' :: pre, by simp [hpre], fun x hx => ?_⟩
        rcases List.mem_cons.mp hx with h' | h'
        · exact h' ▸ (Bool.not_eq_true _ ▸ hpa)
        · exact hall x h'

/-- C6: if a destructor panics during a collection pass, the pass is aborted —
the destructors invoked in the pass are exactly those of the entries preceding
the failing one plus the failing destructor itself, nothing after it runs —
the failure propagates synchronously to the caller of `try_gc` (and of `gc`,
whose loop returns the same panicked outcome), the collector lock is released,
and the failing entry is removed from the queue so its destructor is never
invoked again. -/
theorem destructor_panic_aborts (panics : Entry → Bool) (s : State) (e : Entry)
    (hlock : s.lockHeld = false)
    (hpan : (drainPanic panics (protectedAddrs (exportGarbage s))
      (exportGarbage s).queue).2.2 = some e) :
    (try_gc_panic panics s).1 = .panicked ∧
    (∀ fuel, gc_panic panics s (fuel + 1) = some (try_gc_panic panics s)) ∧
    (try_gc_panic panics s).2.lockHeld = false ∧
    (∃ pre, (try_gc_panic panics s).2.destroyed = s.destroyed ++ (pre ++ [e]) ∧
      ∀ x ∈ pre, panics x = false) ∧
    e ∉ (try_gc_panic panics s).2.queue := by
  have hlock1 : (exportGarbage s).lockHeld = false := hlock
  have hmain : try_gc_panic panics s = collectPanic panics (exportGarbage s) := by
    rw [try_gc_panic, hlock1]
    simp
  refine ⟨?_, ?_, ?_, ?_, ?_⟩
  · rw [hmain, collectPanic]
    simp [hpan]
  · intro fuel
    rw [gc_panic, gcPanicAux, hlock1, hmain]
    simp
  · rw [hmain, collectPanic]
  · obtain ⟨pre, hpre, hall⟩ := drainPanic_aborts_at panics
      (protectedAddrs (exportGarbage s)) (exportGarbage s).queue e hpan
    refine ⟨pre, ?_, hall⟩
    rw [hmain, collectPanic]
    simp only [exportGarbage] at hpre ⊢
    rw [hpre]
  · obtain ⟨_, hnp, _⟩ := drainPanic_panicking_entry panics
      (protectedAddrs (exportGarbage s)) (exportGarbage s).queue e hpan
    intro hmem
    rw [hmain, collectPanic] at hmem
    exact hnp (drainPanic_kept_protected panics _ _ e hmem)

theorem destructor_panic_aborts_witness :
    (try_gc_panic (fun e => decide (e.ptr = 5))
      ⟨[], [], [⟨5, 0⟩], [], false⟩).1 = GcOutcome.panicked :=
  (destructor_panic_aborts (fun e => decide (e.ptr = 5))
    ⟨[], [], [⟨5, 0⟩], [], false⟩ ⟨5, 0⟩ rfl (by decide)).1

/-- Modelled from the spec: the guard construction protocol of §4.5 (module
`guard` missing from the sources): (b) read the current address from the
shared location, (c) set the hazard to that address, (d) re-read the shared
location; if the value changed, repeat from (b) with the new value.  The
shared location's value at the n-th read is `reads n`, and `fuel` bounds the
number of retries so the loop is a total function.  Returns the address the
guard protects when the loop stabilises within the fuel bound. -/
def guardLoop (reads : Nat → Addr) : Nat → Nat → Option Addr
  | _, 0 => none
  | i, fuel + 1 =>
    let v := reads i
    let v' := reads (i + 1)
    if v' = v then some v else guardLoop reads (i + 1) fuel

/-- C7: when guard construction returns, the protected address comes from a
stable read-set-reread triple — the value read at step `j` was re-read
unchanged at step `j + 1` — and at every earlier iteration the re-read
detected a change, so the loop repeated with the new value and the guard never
protects a stale value. -/
theorem guard_validate_retry (reads : Nat → Addr) (i fuel : Nat) (a : Addr)
    (h : guardLoop reads i fuel = some a) :
    ∃ j, i ≤ j ∧ a = reads j ∧ reads (j + 1) = reads j ∧
      ∀ k, i ≤ k → k < j → reads (k + 1) ≠ reads k := by
  induction fuel generalizing i with
  | zero => cases h
  | succ fuel ih =>
    rw [guardLoop] at h
    by_cases hst : reads (i + 1) = reads i
    · rw [if_pos hst] at h
      obtain rfl : reads i = a := by simpa using h
      exact ⟨i, Nat.le_refl i, rfl, hst, fun k hk1 hk2 => absurd hk1 (by omega)⟩
    · rw [if_neg hst] at h
      obtain ⟨j, hj1, hj2, hj3, hj4⟩ := ih (i + 1) h
      refine ⟨j, by omega, hj2, hj3, fun k hk1 hk2 => ?_⟩
      rcases Nat.eq_or_lt_of_le hk1 with rfl | hlt
      · exact hst
      · exact hj4 k hlt hk2

theorem guard_validate_retry_witness :
    ∃ j, 0 ≤ j ∧ (9 : Addr) = (fun k => if k = 0 then 7 else 9) j ∧
      (fun k => if k = 0 then 7 else 9) (j + 1) = (fun k => if k = 0 then 7 else 9) j ∧
      ∀ k, 0 ≤ k → k < j →
        (fun k => if k = 0 then 7 else 9) (k + 1) ≠ (fun k => if k = 0 then 7 else 9) k :=
  guard_validate_retry (fun k => if k = 0 then 7 else 9) 0 3 9 (by decide)

/-- A typed `&'static T` reference: in the model, an address carrying the
pointee type as a phantom parameter. -/
structure Ref (T : Type) where
  addr : Addr

/-- Modelled from the spec: a type-erased garbage entry of `garbage::Garbage`
(module missing from the sources) — "an address + nullary destructor" pair;
destructor semantics are made explicit as a transformer of an abstract world
type `μ`, taking the raw address it is invoked on. -/
structure GarbageF (μ : Type) where
  ptr : Addr
  dtor : Addr → μ → μ

/-- Modelled from the spec: `Garbage::new` stores the erased address and
destructor. -/
def GarbageF.new {μ : Type} (p : Addr) (d : Addr → μ → μ) : GarbageF μ := ⟨p, d⟩

/-- Invoking the stored entry's erased destructor on its stored address. -/
def GarbageF.destroy {μ : Type} (g : GarbageF μ) (w : μ) : μ := g.dtor g.ptr w

/-- The heap, as seen by box-freeing destructors: which addresses are
currently allocated. -/
def Heap := Addr → Bool

/-- Modelled from the spec: the destructor of `add_garbage_boxed` — "free this
allocation": deallocate exactly the given address. -/
def freeBox (a : Addr) (h : Heap) : Heap := fun x => if x = a then false else h x

/-- Modelled from the spec: `Garbage::new_box` — an entry whose destructor
frees the heap allocation at the stored address. -/
def GarbageF.newBox (p : Addr) : GarbageF Heap := GarbageF.new p freeBox

/-- `conc::add_garbage` from `lib.rs`: the `&'static T` is cast to a raw
address (`ptr as *const T as *const u8 as *mut u8`), the `fn(&'static T)`
destructor is transmuted to take the raw address, and the pair is pushed onto
the calling thread's local buffer by `local::add_garbage`. -/
def add_garbage {T : Type} {μ : Type} (ptr : Ref T) (dtor : Ref T → μ → μ)
    (buf : List (GarbageF μ)) : List (GarbageF μ) :=
  buf ++ [GarbageF.new ptr.addr (fun a => dtor ⟨a⟩)]

/-- `conc::add_garbage_box` from `lib.rs`: push a `Garbage::new_box` entry
onto the calling thread's local buffer. -/
def add_garbage_box (p : Addr) (buf : List (GarbageF Heap)) :
    List (GarbageF Heap) :=
  buf ++ [GarbageF.newBox p]

/-- C10: `add_garbage` type-erases its arguments — it appends a single entry
whose stored address is the cast of `ptr` and such that invoking the stored
erased destructor on the stored address performs exactly `dtor ptr`. -/
theorem add_garbage_erasure {T μ : Type} (ptr : Ref T) (dtor : Ref T → μ → μ)
    (buf : List (GarbageF μ)) (w : μ) :
    ∃ g, add_garbage ptr dtor buf = buf ++ [g] ∧ g.ptr = ptr.addr ∧
      g.destroy w = dtor ptr w :=
  ⟨GarbageF.new ptr.addr (fun a => dtor ⟨a⟩), rfl, rfl, rfl⟩

/-- C9: `add_garbage_box` is the single-allocation specialization of
`add_garbage`: it submits the same entry `add_garbage` would with the
box-freeing destructor, and that destructor frees exactly the stored heap
allocation, leaving every other address untouched. -/
theorem add_garbage_box_spec {T : Type} (ptr : Ref T)
    (buf : List (GarbageF Heap)) :
    add_garbage_box ptr.addr buf =
      add_garbage ptr (fun r h => freeBox r.addr h) buf ∧
    ∀ h : Heap, (GarbageF.newBox ptr.addr).destroy h ptr.addr = false ∧
      ∀ x, x ≠ ptr.addr → (GarbageF.newBox ptr.addr).destroy h x = h x := by
  refine ⟨rfl, fun h => ⟨?_, fun x hx => ?_⟩⟩
  · simp [GarbageF.newBox, GarbageF.new, GarbageF.destroy, freeBox]
  · simp [GarbageF.newBox, GarbageF.new, GarbageF.destroy, freeBox, hx]

theorem add_garbage_box_spec_witness :
    (GarbageF.newBox 5).destroy (fun _ => true) 3 = true :=
  ((add_garbage_box_spec (⟨5⟩ : Ref Unit) []).2 (fun _ => true)).2 3 (by decide)

end Conc
